import Mathlib

/-!
Verification of the tender-scraping layer of the saas-subscription repository:
the date normalizer `convert_date_to_standard_format`, the deduplication
gateway `DeduplicationService.filter_new_tenders`, the `run_in_thread`
decorator, and the six site scrapers' extraction / export / error-handling
control flow (`Backend/scrapers/services.py` and `Backend/scrapers/*/scraper.py`).

The Python code is shallowly embedded: strings become `List Char`, regular
expression searches are hand-compiled per pattern (leftmost match with the
backtracking order of `re.search`), exceptions become `Except`, and the
browser/DOM environment of each scraper becomes an explicit structure of step
outcomes and row contents.
-/

namespace Scrapers

/-! ## Character classes (Python `re` classes `\d`, `\s`, `\w`, `str.lower`) -/

/-- ASCII digit, the `\d` class as it applies to the portal texts. -/
def isDig (c : Char) : Bool := 48 ≤ c.toNat && c.toNat ≤ 57

/-- Python whitespace (`\s`, `str.strip`): space, tab, newline, CR, VT, FF. -/
def isSpaceChar (c : Char) : Bool :=
  c.toNat = 32 || c.toNat = 9 || c.toNat = 10 || c.toNat = 13 || c.toNat = 11 || c.toNat = 12

/-- Lowercase letter as it occurs in the month tables: ASCII `a`-`z` plus the
accented letters `é` (233) and `û` (251) used by the French month names. -/
def isLet (c : Char) : Bool :=
  (97 ≤ c.toNat && c.toNat ≤ 122) || c.toNat = 233 || c.toNat = 251

/-- The `\w` class restricted to what the portal texts contain: ASCII
alphanumerics, underscore and Latin-1 letters. -/
def isWordChar (c : Char) : Bool :=
  (48 ≤ c.toNat && c.toNat ≤ 57) || (65 ≤ c.toNat && c.toNat ≤ 90) ||
  (97 ≤ c.toNat && c.toNat ≤ 122) || c = '_' ||
  (192 ≤ c.toNat && c.toNat ≤ 255 && c.toNat ≠ 215 && c.toNat ≠ 247)

/-- `str.lower` on the Latin-1 range (covers every character the scrapers
feed it: ASCII plus accented French capitals such as `É`). -/
def pyLowerChar (c : Char) : Char :=
  if 65 ≤ c.toNat ∧ c.toNat ≤ 90 then Char.ofNat (c.toNat + 32)
  else if 192 ≤ c.toNat ∧ c.toNat ≤ 222 ∧ c.toNat ≠ 215 then Char.ofNat (c.toNat + 32)
  else c

def pyLower (l : List Char) : List Char := l.map pyLowerChar

/-- Python `str.strip()`: drop whitespace from both ends. -/
def pyStrip (l : List Char) : List Char :=
  ((l.dropWhile isSpaceChar).reverse.dropWhile isSpaceChar).reverse

def pyStripStr (s : String) : String := ⟨pyStrip s.data⟩

def pyLowerStr (s : String) : String := ⟨pyLower s.data⟩

/-- `a = b` on char lists, as a Bool prefix test (`tok.isPrefixOf l`). -/
def pfxOf : List Char → List Char → Bool
  | [], _ => true
  | _ :: _, [] => false
  | a :: as, b :: bs => a = b && pfxOf as bs

/-- Python `sub in s`: `sub` occurs as a contiguous substring of `l`. -/
def containsSub (sub : List Char) : List Char → Bool
  | [] => sub.isEmpty
  | c :: t => pfxOf sub (c :: t) || containsSub sub t

/-- Is character `c` present in `l`. -/
def hasChar (c : Char) (l : List Char) : Bool := l.any (fun x => x = c)

/-! ## Hand-compiled `re.search` machinery -/

/-- Take exactly `n` digits from the front (the regex atom `\d{n}`). -/
def takeDigits : Nat → List Char → Option (List Char × List Char)
  | 0, l => some ([], l)
  | n + 1, c :: l =>
    if isDig c then (takeDigits n l).map (fun p => (c :: p.1, p.2)) else none
  | _ + 1, [] => none

/-- Greedy `(\d{1,2})` with backtracking: try two digits, then one, feeding
each attempt to the continuation `k`. -/
def try12 {α : Type} (l : List Char) (k : List Char → List Char → Option α) : Option α :=
  match takeDigits 2 l with
  | some (t, r) =>
    match k t r with
    | some v => some v
    | none =>
      match takeDigits 1 l with
      | some (t1, r1) => k t1 r1
      | none => none
  | none =>
    match takeDigits 1 l with
    | some (t1, r1) => k t1 r1
    | none => none

/-- Regex alternation `(a|b|...)`: try each alternative in order as a prefix,
backtracking into the continuation `k`. -/
def tryAlts {α : Type} : List (List Char) → List Char → (List Char → List Char → Option α) → Option α
  | [], _, _ => none
  | a :: rest, l, k =>
    match (if pfxOf a l then k a (l.drop a.length) else none) with
    | some v => some v
    | none => tryAlts rest l k

/-- `re.search`: try the matcher at every start position, leftmost wins. -/
def searchBy {α : Type} (f : List Char → Option α) : List Char → Option α
  | [] => f []
  | c :: l =>
    match f (c :: l) with
    | some v => some v
    | none => searchBy f l

/-- Match `(\d{1,2})sep(\d{1,2})sep(\d{ylen})` at the current position
(patterns `DD/MM/YYYY`, `DD-MM-YYYY`, `DD.MM.YYYY`, `DD/MM/YY`). -/
def matchNumAt (sep : Char) (ylen : Nat) (l : List Char) :
    Option (List Char × List Char × List Char) :=
  try12 l (fun dC r1 =>
    match r1 with
    | c :: r2 =>
      if c = sep then
        try12 r2 (fun mC r3 =>
          match r3 with
          | c2 :: r4 =>
            if c2 = sep then (takeDigits ylen r4).map (fun p => (dC, mC, p.1))
            else none
          | [] => none)
      else none
    | [] => none)

/-- Match `(\d{4})-(\d{1,2})-(\d{1,2})` (pattern `YYYY-MM-DD`) at the current
position; returns (year digits, month digits, day digits). -/
def matchYmdAt (l : List Char) : Option (List Char × List Char × List Char) :=
  match takeDigits 4 l with
  | some (yC, r1) =>
    match r1 with
    | '-' :: r2 =>
      try12 r2 (fun mC r3 =>
        match r3 with
        | '-' :: r4 => try12 r4 (fun dC _ => some (yC, mC, dC))
        | _ => none)
    | _ => none
  | none => none

/-- The French month alternation of the weekday pattern, in the source's
order: twelve abbreviations, then the twelve full names. -/
def frAltTokens : List (List Char) :=
  ["jan".data, "fév".data, "mar".data, "avr".data, "mai".data, "jun".data,
   "jul".data, "aoû".data, "sep".data, "oct".data, "nov".data, "déc".data,
   "janvier".data, "février".data, "mars".data, "avril".data, "mai".data,
   "juin".data, "juillet".data, "août".data, "septembre".data, "octobre".data,
   "novembre".data, "décembre".data]

/-- The twelve full French month names (pattern `DD mois YYYY`). -/
def frFullTokens : List (List Char) :=
  ["janvier".data, "février".data, "mars".data, "avril".data, "mai".data,
   "juin".data, "juillet".data, "août".data, "septembre".data, "octobre".data,
   "novembre".data, "décembre".data]

/-- The twelve English month names (pattern `Month DD, YYYY`). -/
def enTokens : List (List Char) :=
  ["january".data, "february".data, "march".data, "april".data, "may".data,
   "june".data, "july".data, "august".data, "september".data, "october".data,
   "november".data, "december".data]

/-- `french_months`: full names and abbreviations to zero-padded month
numbers (the duplicate `'mai'` key of the source collapses to one entry). -/
def frenchMonths : List (List Char × List Char) :=
  [("janvier".data, "01".data), ("février".data, "02".data), ("mars".data, "03".data),
   ("avril".data, "04".data), ("mai".data, "05".data), ("juin".data, "06".data),
   ("juillet".data, "07".data), ("août".data, "08".data), ("septembre".data, "09".data),
   ("octobre".data, "10".data), ("novembre".data, "11".data), ("décembre".data, "12".data),
   ("jan".data, "01".data), ("fév".data, "02".data), ("mar".data, "03".data),
   ("avr".data, "04".data), ("jun".data, "06".data), ("jul".data, "07".data),
   ("aoû".data, "08".data), ("sep".data, "09".data), ("oct".data, "10".data),
   ("nov".data, "11".data), ("déc".data, "12".data)]

/-- `english_months`: full English names to zero-padded month numbers. -/
def englishMonths : List (List Char × List Char) :=
  [("january".data, "01".data), ("february".data, "02".data), ("march".data, "03".data),
   ("april".data, "04".data), ("may".data, "05".data), ("june".data, "06".data),
   ("july".data, "07".data), ("august".data, "08".data), ("september".data, "09".data),
   ("october".data, "10".data), ("november".data, "11".data), ("december".data, "12".data)]

/-- `dict.get` on an association list of char-list keys. -/
def lookupAssoc (table : List (List Char × List Char)) (key : List Char) : Option (List Char) :=
  match table with
  | [] => none
  | p :: rest => if p.1 = key then some p.2 else lookupAssoc rest key

/-- Match `\w+\s+(\d{1,2})\s+(jan|...|décembre)\s+(\d{4})` at the current
position.  `\w+` and `\s+` commit to their maximal runs (their classes are
disjoint from what follows, so regex backtracking cannot produce any other
match); `(\d{1,2})` and the alternation backtrack for real. -/
def matchP6At (l : List Char) : Option (List Char × List Char × List Char) :=
  if l.takeWhile isWordChar = [] then none
  else if (l.dropWhile isWordChar).takeWhile isSpaceChar = [] then none
  else
    try12 ((l.dropWhile isWordChar).dropWhile isSpaceChar) (fun dC r3 =>
      if r3.takeWhile isSpaceChar = [] then none
      else
        tryAlts frAltTokens (r3.dropWhile isSpaceChar) (fun tok r5 =>
          if r5.takeWhile isSpaceChar = [] then none
          else
            (takeDigits 4 (r5.dropWhile isSpaceChar)).map (fun p => (dC, tok, p.1))))

/-- Match `(\d{1,2})\s+(janvier|...|décembre)\s+(\d{4})` at the current position. -/
def matchP7At (l : List Char) : Option (List Char × List Char × List Char) :=
  try12 l (fun dC r1 =>
    if r1.takeWhile isSpaceChar = [] then none
    else
      tryAlts frFullTokens (r1.dropWhile isSpaceChar) (fun tok r2 =>
        if r2.takeWhile isSpaceChar = [] then none
        else
          (takeDigits 4 (r2.dropWhile isSpaceChar)).map (fun p => (dC, tok, p.1))))

/-- The tail of the English pattern after the optional comma:
`\s+(\d{4})`. -/
def p8Tail (tok dC r : List Char) : Option (List Char × List Char × List Char) :=
  if r.takeWhile isSpaceChar = [] then none
  else (takeDigits 4 (r.dropWhile isSpaceChar)).map (fun p => (tok, dC, p.1))

/-- Match `(january|...|december)\s+(\d{1,2}),?\s+(\d{4})` at the current
position; the optional comma is tried greedily first. -/
def matchP8At (l : List Char) : Option (List Char × List Char × List Char) :=
  tryAlts enTokens l (fun tok r1 =>
    if r1.takeWhile isSpaceChar = [] then none
    else
      try12 (r1.dropWhile isSpaceChar) (fun dC r3 =>
        match r3 with
        | ',' :: rest =>
          match p8Tail tok dC rest with
          | some v => some v
          | none => p8Tail tok dC r3
        | _ => p8Tail tok dC r3))

/-! ## `datetime.strptime` / `strftime` calendar arithmetic -/

def isLeap (y : Nat) : Bool := y % 4 = 0 && (y % 100 ≠ 0 || y % 400 = 0)

def daysInMonth (y m : Nat) : Nat :=
  if m = 2 then (if isLeap y then 29 else 28)
  else if m = 4 ∨ m = 6 ∨ m = 9 ∨ m = 11 then 30
  else 31

/-- Validity of a (year, month, day) triple for `datetime`. -/
def validDate (y m d : Nat) : Bool :=
  1 ≤ y && y ≤ 9999 && 1 ≤ m && m ≤ 12 && 1 ≤ d && d ≤ daysInMonth y m

def digitsToNat (l : List Char) : Nat := l.foldl (fun a c => a * 10 + (c.toNat - 48)) 0

def natChars (n : Nat) : List Char := (Nat.repr n).data

/-- Zero-pad a numeral to two characters (`strftime` field). -/
def pad2 (n : Nat) : List Char := if n < 10 then '0' :: natChars n else natChars n

/-- `strftime('%Y-%m-%d')` of a validated date. -/
def isoChars (y m d : Nat) : List Char := natChars y ++ '-' :: pad2 m ++ '-' :: pad2 d

/-- `str.zfill(2)`: left-pad a string with `'0'` to length two. -/
def zfill2 (s : List Char) : List Char :=
  if s.length ≥ 2 then s else List.replicate (2 - s.length) '0' ++ s

/-! ## `convert_date_to_standard_format` (services.py lines 48-144) -/

/-- First-`some`-wins chaining of the pattern list. -/
def tryNext {α : Type} (x : Option α) (f : Unit → Option α) : Option α :=
  match x with
  | some v => some v
  | none => f ()

/-- Numeric strptime handler shared by `DD/MM/YYYY`, `DD-MM-YYYY`,
`DD.MM.YYYY`: parse the matched groups, re-emit ISO on a valid date,
otherwise the `ValueError` is swallowed (`none` = continue). -/
def strpDmy (g : Option (List Char × List Char × List Char)) : Option (List Char) :=
  match g with
  | some (dC, mC, yC) =>
    if validDate (digitsToNat yC) (digitsToNat mC) (digitsToNat dC) then
      some (isoChars (digitsToNat yC) (digitsToNat mC) (digitsToNat dC))
    else none
  | none => none

/-- strptime handler for `YYYY-MM-DD`. -/
def strpYmd (g : Option (List Char × List Char × List Char)) : Option (List Char) :=
  match g with
  | some (yC, mC, dC) =>
    if validDate (digitsToNat yC) (digitsToNat mC) (digitsToNat dC) then
      some (isoChars (digitsToNat yC) (digitsToNat mC) (digitsToNat dC))
    else none
  | none => none

/-- strptime handler for `DD/MM/YY` with the `%y` pivot (0-68 → 2000s). -/
def strpDmy2 (g : Option (List Char × List Char × List Char)) : Option (List Char) :=
  match g with
  | some (dC, mC, yC) =>
    let y := if digitsToNat yC ≤ 68 then 2000 + digitsToNat yC else 1900 + digitsToNat yC
    if validDate y (digitsToNat mC) (digitsToNat dC) then
      some (isoChars y (digitsToNat mC) (digitsToNat dC))
    else none
  | none => none

/-- The month-name branch shared by the three textual patterns: the source
keys the French/English layout on substring containment over the whole
lowered text, then unpacks the groups accordingly and looks the month token
up in the corresponding table; a failed lookup falls through to the next
pattern. -/
def monthNameHandler (low g1 g2 g3 : List Char) : Option (List Char) :=
  if frenchMonths.any (fun p => containsSub p.1 low) then
    -- day, month_name, year = groups
    match lookupAssoc frenchMonths g2 with
    | some mm => some (g3 ++ '-' :: zfill2 mm ++ '-' :: zfill2 g1)
    | none => none
  else if englishMonths.any (fun p => containsSub p.1 low) then
    -- month_name, day, year = groups
    match lookupAssoc englishMonths g1 with
    | some mm => some (g3 ++ '-' :: zfill2 mm ++ '-' :: zfill2 g2)
    | none => none
  else none

def p6Handler (low : List Char) : Option (List Char) :=
  match searchBy matchP6At low with
  | some (g1, g2, g3) => monthNameHandler low g1 g2 g3
  | none => none

def p7Handler (low : List Char) : Option (List Char) :=
  match searchBy matchP7At low with
  | some (g1, g2, g3) => monthNameHandler low g1 g2 g3
  | none => none

def p8Handler (low : List Char) : Option (List Char) :=
  match searchBy matchP8At low with
  | some (g1, g2, g3) => monthNameHandler low g1 g2 g3
  | none => none

/-- `re.findall(r'\d+', text)`: the maximal digit runs, left to right. -/
def digitGroupsAux (cur : List Char) : List Char → List (List Char)
  | [] => if cur = [] then [] else [cur.reverse]
  | c :: t =>
    if isDig c then digitGroupsAux (c :: cur) t
    else if cur = [] then digitGroupsAux [] t
    else cur.reverse :: digitGroupsAux [] t

def digitGroups (l : List Char) : List (List Char) := digitGroupsAux [] l

/-- The digit-extraction fallback (services.py lines 130-142): take the first
three digit runs as day/month/year, expand a two-digit year with the `< 50`
pivot, and accept only if day ∈ [1,31], month ∈ [1,12], year ∈ [1900,2100]. -/
def fallbackOfGroups : List (List Char) → Option (List Char)
  | dC :: mC :: yC :: _ =>
    let y := if yC.length = 2 then
        (if digitsToNat yC < 50 then '2' :: '0' :: yC else '1' :: '9' :: yC)
      else yC
    if 1 ≤ digitsToNat dC ∧ digitsToNat dC ≤ 31 ∧
       1 ≤ digitsToNat mC ∧ digitsToNat mC ≤ 12 ∧
       1900 ≤ digitsToNat y ∧ digitsToNat y ≤ 2100 then
      some (y ++ '-' :: zfill2 mC ++ '-' :: zfill2 dC)
    else none
  | _ => none

/-- `convert_date_to_standard_format` on char lists: sentinel check, the
eight patterns in priority order (each searched on the lower-cased stripped
text), then the digit fallback on the stripped text. -/
def convCore (input : List Char) : Option (List Char) :=
  if input = [] then none
  else if pyStrip input = "N/A".data ∨ pyStrip input = [] ∨
      pyStrip input = "Non spécifiée".data then none
  else
    tryNext (strpDmy (searchBy (matchNumAt '/' 4) (pyLower (pyStrip input)))) fun _ =>
    tryNext (strpDmy (searchBy (matchNumAt '-' 4) (pyLower (pyStrip input)))) fun _ =>
    tryNext (strpDmy (searchBy (matchNumAt '.' 4) (pyLower (pyStrip input)))) fun _ =>
    tryNext (strpYmd (searchBy matchYmdAt (pyLower (pyStrip input)))) fun _ =>
    tryNext (strpDmy2 (searchBy (matchNumAt '/' 2) (pyLower (pyStrip input)))) fun _ =>
    tryNext (p6Handler (pyLower (pyStrip input))) fun _ =>
    tryNext (p7Handler (pyLower (pyStrip input))) fun _ =>
    tryNext (p8Handler (pyLower (pyStrip input))) fun _ =>
    fallbackOfGroups (digitGroups (pyStrip input))

/-- `convert_date_to_standard_format(date_text)` on Lean strings. -/
def convert_date_to_standard_format (s : String) : Option String :=
  (convCore s.data).map (fun l => ⟨l⟩)

/-! ## `run_in_thread` (services.py lines 146-166) -/

/-- The two shared one-slot lists `result` / `exception` of the decorator;
`none` is the Python `None` each is initialised with. -/
structure ThreadCells (ε α : Type) where
  result : Option α
  exception : Option ε

/-- The `target()` closure: run the wrapped call, store its return value in
`result[0]` or the raised exception in `exception[0]`.  A Python return value
is itself modelled as `Option α` (`none` = `None`), so `result` stores it
as-is. -/
def threadTarget {ε α : Type} (outcome : Except ε (Option α)) : ThreadCells ε α :=
  match outcome with
  | .ok v => { result := v, exception := none }
  | .error e => { result := none, exception := some e }

/-- `run_in_thread(func)`: start the thread, join, re-raise a stored
exception, otherwise return `result[0]`. -/
def run_in_thread {σ ε α : Type} (func : σ → Except ε (Option α)) : σ → Except ε (Option α) :=
  fun args =>
    let cells := threadTarget (func args)
    match cells.exception with
    | some e => .error e
    | none => .ok cells.result

/-! ## Tender records and the deduplication gateway (services.py lines 169-258) -/

/-- The dict each scraper builds per row: `objet`, `date_limite`, `link`
(`none` models both Python `None` and an absent key). -/
structure Tender where
  objet : String
  date_limite : Option String
  link : Option String
deriving Repr, DecidableEq

/-- The persisted state read by `_filter_new_tenders_db`:
`tenders_tendersite` rows (name, id) and `tenders_tender` rows
(site_id, title). -/
structure Db where
  sites : List (String × Nat)
  storedTitles : List (Nat × String)

/-- `SELECT id FROM tenders_tendersite WHERE name = %s` + `fetchone()`. -/
def findSiteId (db : Db) (name : String) : Option Nat :=
  match db.sites.find? (fun p => p.1 = name) with
  | some p => some p.2
  | none => none

/-- `SELECT COUNT(*) FROM tenders_tender WHERE LOWER(title) = LOWER(%s) AND
site_id = %s`. -/
def titleMatchCount (db : Db) (sid : Nat) (title : String) : Nat :=
  (db.storedTitles.filter (fun p => p.1 = sid && pyLowerStr p.2 = pyLowerStr title)).length

/-- `_filter_new_tenders_db` (lines 189-242): resolve the site; if absent,
every tender is new; otherwise keep a tender iff its stripped title is
non-empty and has zero case-insensitive matches for that site. -/
def _filter_new_tenders_db (db : Db) (tenders : List Tender) (site_name : String) : List Tender :=
  match findSiteId db site_name with
  | none => tenders
  | some sid =>
    tenders.filter (fun t =>
      let title := pyStripStr t.objet
      title ≠ "" && titleMatchCount db sid title = 0)

/-- The database branch together with the state it leaves behind: the
function only reads (`SELECT`s), so the store is returned unchanged. -/
def filterNewTendersDbFull (db : Db) (tenders : List Tender) (site_name : String) :
    List Tender × Db :=
  (_filter_new_tenders_db db tenders site_name, db)

/-- `DeduplicationService.filter_new_tenders` (lines 244-258):
fail open when Django is unavailable (`DJANGO_AVAILABLE` falsy), and catch
any exception of the (thread-wrapped) database call `dbCall`, returning the
input unchanged. -/
def filter_new_tenders (djangoAvailable : Bool)
    (dbCall : List Tender → String → Except String (List Tender))
    (tenders : List Tender) (site_name : String) : List Tender :=
  if !djangoAvailable then tenders
  else
    match dbCall tenders site_name with
    | .ok r => r
    | .error _ => tenders

/-! ## Link-extraction regexes of the scrapers -/

def isQuote (c : Char) : Bool := c = '\'' || c = '"'

/-- ADM: `location\.href\s*=\s*['\"]([^'\"]+)['\"]` at one position. -/
def matchAdmHrefAt (l : List Char) : Option (List Char) :=
  if pfxOf "location.href".data l then
    match (l.drop 13).dropWhile isSpaceChar with
    | '=' :: r2 =>
      match r2.dropWhile isSpaceChar with
      | q :: r4 =>
        if isQuote q then
          let content := r4.takeWhile (fun c => !isQuote c)
          if content = [] then none
          else
            match r4.dropWhile (fun c => !isQuote c) with
            | _ :: _ => some content
            | [] => none
        else none
      | [] => none
    | _ => none
  else none

/-- Marsa Maroc: `location\.href=['\"](.*?)['\"]` at one position (lazy
group: everything up to the first quote, newlines excluded by `.`). -/
def matchMarsaHrefAt (l : List Char) : Option (List Char) :=
  if pfxOf "location.href=".data l then
    match l.drop 14 with
    | q :: r =>
      if isQuote q then
        let content := r.takeWhile (fun c => !isQuote c && c ≠ '\n')
        match r.dropWhile (fun c => !isQuote c && c ≠ '\n') with
        | c2 :: _ => if isQuote c2 then some content else none
        | [] => none
      else none
    | [] => none
  else none

/-- Offres Online: `window\.location\s*=\s*'([^']+)'` at one position. -/
def matchWinLocAt (l : List Char) : Option (List Char) :=
  if pfxOf "window.location".data l then
    match (l.drop 15).dropWhile isSpaceChar with
    | '=' :: r2 =>
      match r2.dropWhile isSpaceChar with
      | '\'' :: r4 =>
        let content := r4.takeWhile (fun c => c ≠ '\'')
        if content = [] then none
        else
          match r4.dropWhile (fun c => c ≠ '\'') with
          | _ :: _ => some content
          | [] => none
      | _ => none
    | _ => none
  else none

/-- Offres Online fallback: `window\.open\s*\(\s*'([^']+)'` at one position. -/
def matchWinOpenAt (l : List Char) : Option (List Char) :=
  if pfxOf "window.open".data l then
    match (l.drop 11).dropWhile isSpaceChar with
    | '(' :: r2 =>
      match r2.dropWhile isSpaceChar with
      | '\'' :: r4 =>
        let content := r4.takeWhile (fun c => c ≠ '\'')
        if content = [] then none
        else
          match r4.dropWhile (fun c => c ≠ '\'') with
          | _ :: _ => some content
          | [] => none
      | _ => none
    | _ => none
  else none

/-! ## Python string helpers used by the row cleanups -/

/-- Fueled worker for `str.replace` (left-to-right, non-overlapping). -/
def pyReplaceAux (pat rep : List Char) : Nat → List Char → List Char
  | _, [] => []
  | 0, s => s
  | n + 1, c :: t =>
    if pat ≠ [] ∧ pfxOf pat (c :: t) then rep ++ pyReplaceAux pat rep n ((c :: t).drop pat.length)
    else c :: pyReplaceAux pat rep n t

/-- Python `s.replace(pat, rep)` for a non-empty pattern. -/
def pyReplace (s pat rep : List Char) : List Char := pyReplaceAux pat rep s.length s

/-- Python `s.split(pat)[0]`: the prefix before the first occurrence of
`pat` (all of `s` if absent). -/
def splitBeforeFirst (pat : List Char) : List Char → List Char
  | [] => []
  | c :: t => if pfxOf pat (c :: t) then [] else c :: splitBeforeFirst pat t

/-! ## ADM scraper (adm/scraper.py): extraction loop with seen-set -/

/-- The `div.limita` deadline element: optional inner `span` text and the
full `text_content()`. -/
structure AdmDateElem where
  span : Option String
  full : String
deriving Repr, DecidableEq

/-- One `div:nth-child(index)` card of the ADM listing. -/
structure AdmItem where
  objet : Option String
  dateLimite : Option AdmDateElem
  onclick : Option String
deriving Repr, DecidableEq

/-- The redundant label stripped from ADM `objet` texts (scraper.py line 126). -/
def admObjetLabel : List Char :=
  "Objet\n".data ++ List.replicate 56 ' ' ++ ": \n".data ++ List.replicate 52 ' '

/-- ADM deadline text: prefer the stripped span text, fall back to the full
text only when the span text strips to empty (lines 115-123). -/
def admDateRaw (d : Option AdmDateElem) : List Char :=
  match d with
  | none => "N/A".data
  | some de =>
    let dt :=
      match de.span with
      | some s => pyStrip s.data
      | none => "N/A".data
    if dt = [] then pyStrip de.full.data else dt

/-- ADM link from the card's `onclick` attribute (lines 102-109). -/
def admLink (onclick : Option String) : String :=
  match onclick with
  | some oc =>
    if oc = "" then "N/A"
    else
      match searchBy matchAdmHrefAt oc.data with
      | some u => ⟨u⟩
      | none => "N/A"
  | none => "N/A"

/-- Clean one ADM card into a record (lines 98-140). -/
def admProcessItem (it : AdmItem) : Tender :=
  let objet0 :=
    match it.objet with
    | some s => pyStrip s.data
    | none => "N/A".data
  let date0 := admDateRaw it.dateLimite
  let objet1 := pyReplace objet0 admObjetLabel []
  let date1 := pyReplace date0 "Date limite de remise des plis".data []
  let dateText := if pyStrip date1 = [] then "N/A".data else pyStrip date1
  { objet := ⟨pyStrip objet1⟩, date_limite := some ⟨dateText⟩, link := some (admLink it.onclick) }

/-- One iteration of the ADM index loop: skip a missing card, and append a
record only when its title is not in the seen-set (lines 90-141). -/
def admStep (items : Nat → Option AdmItem) (st : List String × List Tender) (idx : Nat) :
    List String × List Tender :=
  match items idx with
  | none => st
  | some it =>
    let t := admProcessItem it
    if t.objet ∈ st.1 then st
    else (t.objet :: st.1, st.2 ++ [t])

/-- The ADM extraction loop over indices 2..7 with its in-run seen-set. -/
def admExtract (items : Nat → Option AdmItem) : List Tender :=
  ([2, 3, 4, 5, 6, 7].foldl (admStep items) ([], [])).2

/-- The browser-session outcomes an ADM run depends on: the pre-extraction
steps (goto, popup, login, navigation, container wait — first raised
exception if any), the listing cards, the deduplication gateway's answer,
and the export I/O inside the `try`. -/
structure AdmEnv where
  pre : Except String Unit
  items : Nat → Option AdmItem
  dedup : List Tender → List Tender
  exportStep : Except String Unit

/-- The body of `AdmScraper.scrape` inside its `try` (lines 34-188). -/
def admBody (env : AdmEnv) : Except String (List Tender) :=
  match env.pre with
  | .error e => .error e
  | .ok _ =>
    let newTenders := env.dedup (admExtract env.items)
    if !newTenders.isEmpty then
      match env.exportStep with
      | .error e => .error e
      | .ok _ => .ok newTenders
    else .ok []

/-- `AdmScraper.scrape`: the `except` clause screenshots and `raise`s
(lines 190-194), so errors propagate. -/
def admScrape (env : AdmEnv) : Except String (List Tender) :=
  match admBody env with
  | .ok r => .ok r
  | .error e => .error e

/-! ## Royal Air Maroc scraper (royalairmaroc/scraper.py): extraction and export -/

/-- One row of the RAM tender table: title cell text, deadline cell text,
and the title link (`some none` = anchor present with `href = None`). -/
structure RamRow where
  title : Option String
  dateL : Option String
  href : Option (Option String)
deriving Repr, DecidableEq

/-- RAM link cleanup (lines 148-154): truncate after the first `.do`,
rewrite `/init` to `/`, and prefix the host. -/
def ramCleanLink (h : String) : String :=
  "https://ram-esourcing.royalairmaroc.com" ++
    (⟨pyReplace (splitBeforeFirst ".do".data h.data ++ ".do".data) "/init".data "/".data⟩ : String)

/-- One RAM row to a record (lines 116-164): appended iff the title cell
resolved; no duplicate-title check. -/
def ramRowTender (r : RamRow) : Option Tender :=
  match r.title with
  | none => none
  | some o =>
    some
      { objet := pyStripStr o,
        date_limite := some (match r.dateL with
          | some d => pyStripStr d
          | none => "N/A"),
        link := some (match r.href with
          | none => "N/A"
          | some none => "N/A"
          | some (some h) => if h = "" then "N/A" else ramCleanLink h) }

/-- The RAM extraction loop over row indices 1..20 (line 115). -/
def ramExtract (rows : Nat → Option RamRow) : List Tender :=
  ((List.range 20).map (fun i => i + 1)).filterMap (fun i => (rows i).bind ramRowTender)

/-- The JSON merge step of `_export_data` (RAM lines 207-218, and the same
inline code in ADM lines 161-172): the prior store (`none` = file missing or
malformed JSON) is read as a list and the new records are appended after it. -/
def exportMerge (prior : Option (List Tender)) (newTenders : List Tender) : List Tender :=
  (match prior with
   | some l => l
   | none => []) ++ newTenders

/-! ## CGI E-Sourcing scraper (cgi/scraper.py) -/

/-- One `table.tender-list tr` row: the texts of cells 2 and 4 (`none` =
`query_selector` returned `None`, so `.inner_text()` raises). -/
structure CgiRow where
  col2 : Option String
  col4 : Option String
deriving Repr, DecidableEq

/-- CGI row processing (lines 145-154): no null-checks, so a missing cell
raises out of the row loop. -/
def cgiRowTender (r : CgiRow) : Except String Tender :=
  match r.col2 with
  | none => .error "AttributeError"
  | some o =>
    match r.col4 with
    | none => .error "AttributeError"
    | some d =>
      .ok { objet := pyStripStr o,
            date_limite := convert_date_to_standard_format (pyStripStr d),
            link := none }

/-- The CGI extraction loop: sequential, aborted by the first row error. -/
def cgiExtract : List CgiRow → Except String (List Tender)
  | [] => .ok []
  | r :: rest =>
    match cgiRowTender r with
    | .error e => .error e
    | .ok t =>
      match cgiExtract rest with
      | .error e => .error e
      | .ok ts => .ok (t :: ts)

/-- CGI session outcomes: steps before the inner `try`, the post-click
block, the no-tenders warning banner, and the table rows (header included). -/
structure CgiEnv where
  pre : Except String Unit
  postClick : Except String Unit
  warning : Bool
  rows : List CgiRow
  dedup : List Tender → List Tender

/-- The inner `try` of `CGIESourcingScraper.scrape` (lines 106-169). -/
def cgiInner (env : CgiEnv) : Except String (List Tender) :=
  match env.postClick with
  | .error e => .error e
  | .ok _ =>
    if env.warning then .ok []
    else
      match cgiExtract (env.rows.drop 1) with
      | .error e => .error e
      | .ok tenders =>
        let newTenders := env.dedup tenders
        if !newTenders.isEmpty then .ok newTenders else .ok []

/-- The outer `try` body: inner failures are caught, screenshotted and
turned into `[]` (lines 170-174). -/
def cgiBody (env : CgiEnv) : Except String (List Tender) :=
  match env.pre with
  | .error e => .error e
  | .ok _ =>
    match cgiInner env with
    | .ok r => .ok r
    | .error _ => .ok []

/-- `CGIESourcingScraper.scrape`: the global handler also returns `[]`
(lines 175-177). -/
def cgiScrape (env : CgiEnv) : Except String (List Tender) :=
  match cgiBody env with
  | .ok r => .ok r
  | .error _ => .ok []

/-! ## Marsa Maroc scraper (marsamaroc/scraper.py) -/

/-- One Marsa listing card: `div.p-objet` text, the deadline span text, and
the card's `onclick`. -/
structure MarsaRow where
  objet : Option String
  dateSpan : Option String
  onclick : Option String
deriving Repr, DecidableEq

/-- Marsa link from `onclick` (lines 134-145). -/
def marsaLink (onclick : Option String) : String :=
  match onclick with
  | some oc =>
    if oc = "" then "N/A"
    else
      match searchBy matchMarsaHrefAt oc.data with
      | some u => ⟨u⟩
      | none => "N/A"
  | none => "N/A"

/-- One Marsa row to a record (lines 110-150): skipped when the objet
element is missing; the deadline text goes through the date normalizer. -/
def marsaRowTender (r : MarsaRow) : Option Tender :=
  match r.objet with
  | none => none
  | some o =>
    some
      { objet := pyStripStr o,
        date_limite :=
          match r.dateSpan with
          | some d => convert_date_to_standard_format (pyStripStr d)
          | none => none,
        link := some (marsaLink r.onclick) }

/-- The Marsa extraction loop over indices 2..10 (line 98). -/
def marsaExtract (rows : Nat → Option MarsaRow) : List Tender :=
  ((List.range 9).map (fun i => i + 2)).filterMap (fun i => (rows i).bind marsaRowTender)

/-- Marsa session outcomes; `loginOk` is the `#collapseOne2` check whose
failure raises `"Impossible de se connecter"`. -/
structure MarsaEnv where
  pre : Except String Unit
  loginOk : Bool
  postLogin : Except String Unit
  container : Except String Unit
  rows : Nat → Option MarsaRow
  dedup : List Tender → List Tender

/-- The body of `MarsaMarocScraper.scrape` inside its `try` (lines 37-170);
`_export_data` has its own catch-all and cannot raise. -/
def marsaBody (env : MarsaEnv) : Except String (List Tender) :=
  match env.pre with
  | .error e => .error e
  | .ok _ =>
    if !env.loginOk then .error "Impossible de se connecter"
    else
      match env.postLogin with
      | .error e => .error e
      | .ok _ =>
        match env.container with
        | .error e => .error e
        | .ok _ =>
          let newTenders := env.dedup (marsaExtract env.rows)
          if !newTenders.isEmpty then .ok newTenders else .ok []

/-- `MarsaMarocScraper.scrape`: the `except` clause `raise e`s
(lines 172-174), so errors propagate. -/
def marsaScrape (env : MarsaEnv) : Except String (List Tender) :=
  match marsaBody env with
  | .ok r => .ok r
  | .error e => .error e

/-! ## Marchés Publics scraper (marchespublics/scraper.py) -/

/-- One result-table row: objet panel text and deadline cell text. -/
structure MpRow where
  objet : Option String
  deadline : Option String
deriving Repr, DecidableEq

/-- One row to a record (lines 78-94): appended iff the objet cell resolved. -/
def mpRowTender (r : MpRow) : Option Tender :=
  match r.objet with
  | none => none
  | some o =>
    some
      { objet := pyStripStr o,
        date_limite := some (match r.deadline with
          | some d => pyStripStr d
          | none => "N/A"),
        link := none }

/-- The row loop skips the header row (`rows[1:]`). -/
def mpExtract (rows : List MpRow) : List Tender := (rows.drop 1).filterMap mpRowTender

/-- Marchés Publics session outcomes; `table` is the inner `try` around the
results table (`error` = wait failed). -/
structure MpEnv where
  pre : Except String Unit
  errorMessage : Option String
  menu : Except String Unit
  searchClick : Except String Unit
  table : Except String (List MpRow)
  dedup : List Tender → List Tender

/-- The body of `MarchesPublicsScraper.scrape` inside its `try`
(lines 33-111): a login error message raises, a failing menu wait raises,
a failing table wait returns `[]` from the inner handler. -/
def mpBody (env : MpEnv) : Except String (List Tender) :=
  match env.pre with
  | .error e => .error e
  | .ok _ =>
    match env.errorMessage with
    | some msg => .error ("Échec de connexion: " ++ msg)
    | none =>
      match env.menu with
      | .error _ => .error "Menu des annonces non trouvé. Vérifiez si vous êtes bien connecté."
      | .ok _ =>
        match env.searchClick with
        | .error e => .error e
        | .ok _ =>
          match env.table with
          | .error _ => .ok []
          | .ok rows =>
            if rows.isEmpty then .ok []
            else
              let newTenders := env.dedup (mpExtract rows)
              if !newTenders.isEmpty then .ok newTenders else .ok []

/-- `MarchesPublicsScraper.scrape`: the global `except` returns `[]`
(lines 113-115). -/
def marchesPublicsScrape (env : MpEnv) : Except String (List Tender) :=
  match mpBody env with
  | .ok r => .ok r
  | .error _ => .ok []

/-! ## Offres Online scraper (offresonline/scraper.py) -/

/-- One `#tableao` row as the loop reads it: whether the objet cell locator
resolved, its `text_content()`, the deadline `b` text, and the `onclick`. -/
structure OffresRow where
  present : Bool
  objetText : Option String
  dateB : Option String
  onclick : Option String
deriving Repr, DecidableEq

/-- Offres Online link from `onclick` (lines 97-107): `window.location`
first, then `window.open`, else `None`. -/
def offresLink (onclick : Option String) : Option String :=
  match onclick with
  | some oc =>
    if oc = "" then none
    else
      match searchBy matchWinLocAt oc.data with
      | some u => some ⟨u⟩
      | none =>
        match searchBy matchWinOpenAt oc.data with
        | some u => some (⟨u⟩ : String)
        | none => none
  | none => none

/-- One Offres Online row to a record (lines 64-110): skipped when the row
is absent or its objet text is falsy. -/
def offresRowTender (r : OffresRow) : Option Tender :=
  if !r.present then none
  else
    match r.objetText with
    | none => none
    | some o =>
      if o = "" then none
      else
        some
          { objet := pyStripStr o,
            date_limite :=
              match r.dateB with
              | some d =>
                if d ≠ "" ∧ pyStripStr d ≠ "" then convert_date_to_standard_format (pyStripStr d)
                else none
              | none => none,
            link := offresLink r.onclick }

/-- The Offres Online extraction loop over XPath rows 1..12 (line 64). -/
def offresExtract (rows : Nat → OffresRow) : List Tender :=
  ((List.range 12).map (fun i => i + 1)).filterMap (fun i => offresRowTender (rows i))

/-- Offres Online session outcomes. -/
structure OffresEnv where
  pre : Except String Unit
  rows : Nat → OffresRow
  dedup : List Tender → List Tender

/-- `OffresonlineScraper.scrape` (lines 31-129): a `try`/`finally` with no
`except` clause — any exception propagates to the caller. -/
def offresScrape (env : OffresEnv) : Except String (List Tender) :=
  match env.pre with
  | .error e => .error e
  | .ok _ =>
    let newTenders := env.dedup (offresExtract env.rows)
    if !newTenders.isEmpty then .ok newTenders else .ok []

/-! ## Concrete instances used by counterexamples and witnesses -/

/-- A session whose first step raises a timeout. -/
def admEnvBad : AdmEnv :=
  { pre := Except.error "TimeoutError", items := fun _ => none,
    dedup := fun t => t, exportStep := Except.ok () }

def marsaEnvBad : MarsaEnv :=
  { pre := Except.error "TimeoutError", loginOk := true, postLogin := Except.ok (),
    container := Except.ok (), rows := fun _ => none, dedup := fun t => t }

def mpEnvBad : MpEnv :=
  { pre := Except.error "TimeoutError", errorMessage := none, menu := Except.ok (),
    searchClick := Except.ok (), table := Except.error "TimeoutError", dedup := fun t => t }

def cgiEnvBad : CgiEnv :=
  { pre := Except.error "TimeoutError", postClick := Except.ok (), warning := false,
    rows := [], dedup := fun t => t }

def offresEnvBad : OffresEnv :=
  { pre := Except.error "TimeoutError",
    rows := fun _ => { present := false, objetText := none, dateB := none, onclick := none },
    dedup := fun t => t }

/-- A RAM listing in which rows 1 and 2 carry the same title. -/
def ramRowsDup : Nat → Option RamRow := fun i =>
  if i = 1 ∨ i = 2 then some { title := some "Marché de travaux", dateL := none, href := none }
  else none

def cgiRowHeader : CgiRow := { col2 := some "Objet", col4 := some "Date" }

def cgiRowA : CgiRow := { col2 := some "Objet A", col4 := some "27/08/2025" }

/-- A store holding one title for the Marsa Maroc site. -/
def dbW : Db :=
  { sites := [("Marsa Maroc", 1)], storedTitles := [(1, "fourniture de matériel")] }

/-- Two case/whitespace variants of the stored title plus one new title. -/
def tendersW : List Tender :=
  [{ objet := "Fourniture de matériel", date_limite := none, link := none },
   { objet := "FOURNITURE DE MATÉRIEL ", date_limite := none, link := none },
   { objet := "Création de site web", date_limite := none, link := none }]

def dbW8 : Db := { sites := [("ADM - Autoroutes du Maroc", 3)], storedTitles := [] }

def tendersW8 : List Tender :=
  [{ objet := "  ", date_limite := none, link := none },
   { objet := "Travaux divers", date_limite := none, link := none }]

/-- A database call that raises on every invocation. -/
def dbCallBad : List Tender → String → Except String (List Tender) :=
  fun _ _ => Except.error "database is locked"

def tenderBlank : Tender := { objet := " ", date_limite := none, link := none }

def existW : List Tender :=
  [{ objet := "Ancien marché 1", date_limite := some "2025-01-01", link := none },
   { objet := "Ancien marché 2", date_limite := none, link := some "N/A" }]

def newW : List Tender :=
  [{ objet := "Nouveau marché", date_limite := some "2025-08-27", link := none }]

/-- The five English month names unaffected by the French substring check,
as (capitalised name, lowered name, month number). -/
def goodEnglishMonths : List (List Char × List Char × List Char) :=
  [("February".data, "february".data, "02".data),
   ("April".data, "april".data, "04".data),
   ("May".data, "may".data, "05".data),
   ("August".data, "august".data, "08".data),
   ("December".data, "december".data, "12".data)]

/-! ## Helper lemmas -/

theorem hasChar_iff (a : Char) (l : List Char) : hasChar a l = true ↔ a ∈ l := by
  simp only [hasChar, List.any_eq_true, decide_eq_true_eq]
  constructor
  · rintro ⟨x, hx, rfl⟩; exact hx
  · intro h; exact ⟨a, h, rfl⟩

theorem titleMatchCount_eq_zero_iff (db : Db) (sid : Nat) (title : String) :
    titleMatchCount db sid title = 0 ↔
      db.storedTitles.any (fun p => p.1 = sid && pyLowerStr p.2 = pyLowerStr title) = false := by
  simp [titleMatchCount, List.length_eq_zero, List.filter_eq_nil_iff, List.any_eq_false]

theorem admStep_inv (items : Nat → Option AdmItem) (st : List String × List Tender) (idx : Nat)
    (h1 : ((st.2.map (fun t => t.objet))).Nodup) (h2 : ∀ t ∈ st.2, t.objet ∈ st.1) :
    (((admStep items st idx).2.map (fun t => t.objet))).Nodup ∧
      ∀ t ∈ (admStep items st idx).2, t.objet ∈ (admStep items st idx).1 := by
  unfold admStep
  cases items idx with
  | none => exact ⟨h1, h2⟩
  | some it =>
    by_cases hc : (admProcessItem it).objet ∈ st.1
    · simp only [hc, if_true]
      exact ⟨h1, h2⟩
    · simp only [hc, if_false]
      constructor
      · rw [List.map_append]
        refine List.Nodup.append h1 (List.nodup_singleton _) ?_
        intro a ha hb
        simp only [List.map_cons, List.map_nil, List.mem_singleton] at hb
        subst hb
        rcases List.mem_map.mp ha with ⟨t, htmem, hteq⟩
        exact hc (hteq ▸ h2 t htmem)
      · intro t ht
        rcases List.mem_append.mp ht with h | h
        · exact List.mem_cons_of_mem _ (h2 t h)
        · simp only [List.mem_singleton] at h
          subst h
          exact List.mem_cons_self _ _

theorem admFold_inv (items : Nat → Option AdmItem) (idxs : List Nat) :
    ∀ st : List String × List Tender,
      ((st.2.map (fun t => t.objet))).Nodup → (∀ t ∈ st.2, t.objet ∈ st.1) →
      (((idxs.foldl (admStep items) st).2.map (fun t => t.objet))).Nodup ∧
        ∀ t ∈ (idxs.foldl (admStep items) st).2, t.objet ∈ (idxs.foldl (admStep items) st).1 := by
  induction idxs with
  | nil => intro st h1 h2; exact ⟨h1, h2⟩
  | cons i rest ih =>
    intro st h1 h2
    have hstep := admStep_inv items st i h1 h2
    exact ih (admStep items st i) hstep.1 hstep.2

/-! ## Claim theorems -/

/-- C5: the date normalizer satisfies the eight example equations of the
spec: the three numeric formats, the French and English month-name formats,
and the null results for `N/A`, the empty string and garbage text. -/
theorem C5_normalizer_examples :
    convert_date_to_standard_format "27/08/2025" = some "2025-08-27" ∧
    convert_date_to_standard_format "27-08-2025" = some "2025-08-27" ∧
    convert_date_to_standard_format "2025-08-27" = some "2025-08-27" ∧
    convert_date_to_standard_format "27 août 2025" = some "2025-08-27" ∧
    convert_date_to_standard_format "August 27, 2025" = some "2025-08-27" ∧
    convert_date_to_standard_format "N/A" = none ∧
    convert_date_to_standard_format "" = none ∧
    convert_date_to_standard_format "garbage text" = none := by
  refine ⟨?_, ?_, ?_, ?_, ?_, ?_, ?_, ?_⟩ <;> rfl

/-- C2 counterexample: the claim says `normalize("31/02/2025")` is null, but
the code's digit-extraction fallback accepts day 31 / month 2 / year 2025
and returns `"2025-02-31"`. -/
theorem C2_counterexample :
    convert_date_to_standard_format "31/02/2025" = some "2025-02-31" := by rfl

/-- C2 (amended): `normalize("99/99/2025")` is null, but
`normalize("31/02/2025")` is `"2025-02-31"`: the strptime patterns reject
February 31, yet the digit-extraction fallback accepts any triple with
day ∈ [1,31], month ∈ [1,12], year ∈ [1900,2100] — and only those. -/
theorem C2_amended :
    convert_date_to_standard_format "99/99/2025" = none ∧
    convert_date_to_standard_format "31/02/2025" = some "2025-02-31" ∧
    (∀ (dC mC yC : List Char) (rest : List (List Char)), yC.length ≠ 2 →
      (fallbackOfGroups (dC :: mC :: yC :: rest) ≠ none ↔
        (1 ≤ digitsToNat dC ∧ digitsToNat dC ≤ 31 ∧ 1 ≤ digitsToNat mC ∧
         digitsToNat mC ≤ 12 ∧ 1900 ≤ digitsToNat yC ∧ digitsToNat yC ≤ 2100))) := by
  refine ⟨by rfl, by rfl, ?_⟩
  intro dC mC yC rest hy
  simp only [fallbackOfGroups, if_neg hy]
  split_ifs with hb
  · exact iff_of_true (fun h => Option.noConfusion h) hb
  · exact iff_of_false (fun h => h rfl) hb

/-- C2 witness: the amended fallback characterisation evaluated at the
digit groups of `"31/02/2025"`. -/
theorem C2_amended_witness :
    ("2025".data.length ≠ 2) ∧
    (fallbackOfGroups ["31".data, "02".data, "2025".data] ≠ none ↔
      (1 ≤ digitsToNat "31".data ∧ digitsToNat "31".data ≤ 31 ∧
       1 ≤ digitsToNat "02".data ∧ digitsToNat "02".data ≤ 12 ∧
       1900 ≤ digitsToNat "2025".data ∧ digitsToNat "2025".data ≤ 2100)) :=
  ⟨by decide, C2_amended.2.2 "31".data "02".data "2025".data [] (by decide)⟩

/-- C4: `filter_new_tenders` fails open — with the backend unavailable it
returns the input unchanged for every records list and site name, and when
the database call raises it catches and returns the input unchanged. -/
theorem C4_fail_open :
    (∀ (dbCall : List Tender → String → Except String (List Tender))
       (tenders : List Tender) (site_name : String),
      filter_new_tenders false dbCall tenders site_name = tenders) ∧
    (∀ (dbCall : List Tender → String → Except String (List Tender))
       (tenders : List Tender) (site_name : String) (e : String),
      dbCall tenders site_name = Except.error e →
      filter_new_tenders true dbCall tenders site_name = tenders) := by
  constructor
  · intro dbCall tenders site_name; rfl
  · intro dbCall tenders site_name e h
    simp [filter_new_tenders, h]

/-- C4 witness: a database call that always raises, applied to a concrete
non-empty batch. -/
theorem C4_fail_open_witness :
    dbCallBad tendersW8 "Marsa Maroc" = Except.error "database is locked" ∧
    filter_new_tenders true dbCallBad tendersW8 "Marsa Maroc" = tendersW8 ∧
    filter_new_tenders false dbCallBad tendersW8 "Marsa Maroc" = tendersW8 :=
  ⟨rfl, C4_fail_open.2 dbCallBad tendersW8 "Marsa Maroc" "database is locked" rfl,
   C4_fail_open.1 dbCallBad tendersW8 "Marsa Maroc"⟩

/-- C10: the `run_in_thread` decorator is observationally equivalent to a
direct call — same return value, same raised exception. -/
theorem C10_run_in_thread_transparent :
    ∀ (σ ε α : Type) (func : σ → Except ε (Option α)) (args : σ),
      run_in_thread func args = func args := by
  intro σ ε α func args
  cases h : func args <;> simp [run_in_thread, threadTarget, h]

/-- C9: the export merge writes existing-then-new: a prior array of size N
plus a non-empty batch of size M yields exactly the concatenation, of size
N + M, and a missing or malformed prior store is read as empty. -/
theorem C9_export_concat (existing newTenders : List Tender) (h : newTenders ≠ []) :
    exportMerge (some existing) newTenders = existing ++ newTenders ∧
    (exportMerge (some existing) newTenders).length = existing.length + newTenders.length ∧
    exportMerge none newTenders = newTenders := by
  refine ⟨rfl, ?_, rfl⟩
  simp [exportMerge]

/-- C9 witness: a two-record prior store merged with a one-record batch. -/
theorem C9_export_concat_witness :
    newW ≠ [] ∧ exportMerge (some existW) newW = existW ++ newW ∧
    (exportMerge (some existW) newW).length = 3 :=
  ⟨by decide, (C9_export_concat existW newW (by decide)).1, by decide⟩

/-- C7: with the backend available and the site resolved, the database
branch returns exactly the input records whose trimmed title has no
case-insensitive match among that site's stored titles, in input order
(a sublist of the input); an unknown site passes every record through; and
the store is left unchanged (no site is created). -/
theorem C7_db_branch (db : Db) (tenders : List Tender) (site_name : String) :
    (∀ sid, findSiteId db site_name = some sid →
      (∀ t ∈ tenders, pyStripStr t.objet ≠ "") →
      _filter_new_tenders_db db tenders site_name =
        tenders.filter (fun t => !db.storedTitles.any (fun p =>
          p.1 = sid && pyLowerStr p.2 = pyLowerStr (pyStripStr t.objet))) ∧
      (_filter_new_tenders_db db tenders site_name).Sublist tenders) ∧
    (findSiteId db site_name = none →
      _filter_new_tenders_db db tenders site_name = tenders) ∧
    (filterNewTendersDbFull db tenders site_name).2 = db := by
  refine ⟨?_, ?_, rfl⟩
  · intro sid hsid hne
    constructor
    · unfold _filter_new_tenders_db
      rw [hsid]
      apply List.filter_congr
      intro t ht
      have hd : decide (pyStripStr t.objet ≠ "") = true := decide_eq_true (hne t ht)
      simp only [hd, Bool.true_and]
      rcases Bool.eq_false_or_eq_true
          (db.storedTitles.any (fun p =>
            p.1 = sid && pyLowerStr p.2 = pyLowerStr (pyStripStr t.objet))) with ha | ha
      · rw [ha]
        simp only [Bool.not_true]
        refine decide_eq_false ?_
        intro hz
        have hf := (titleMatchCount_eq_zero_iff db sid (pyStripStr t.objet)).mp hz
        exact Bool.false_ne_true (hf ▸ ha)
      · rw [ha]
        simp only [Bool.not_false]
        exact decide_eq_true ((titleMatchCount_eq_zero_iff db sid (pyStripStr t.objet)).mpr ha)
    · unfold _filter_new_tenders_db
      rw [hsid]
      exact List.filter_sublist _
  · intro h
    unfold _filter_new_tenders_db
    rw [h]

/-- C7 witness: against a store holding `"fourniture de matériel"` for the
site, the two case/whitespace variants are filtered out and only the new
title survives, in order. -/
theorem C7_db_branch_witness :
    findSiteId dbW "Marsa Maroc" = some 1 ∧
    (∀ t ∈ tendersW, pyStripStr t.objet ≠ "") ∧
    _filter_new_tenders_db dbW tendersW "Marsa Maroc" =
      tendersW.filter (fun t => !dbW.storedTitles.any (fun p =>
        p.1 = 1 && pyLowerStr p.2 = pyLowerStr (pyStripStr t.objet))) ∧
    _filter_new_tenders_db dbW tendersW "Marsa Maroc" =
      [{ objet := "Création de site web", date_limite := none, link := none }] :=
  ⟨by decide, by decide,
   ((C7_db_branch dbW tendersW "Marsa Maroc").1 1 (by decide) (by decide)).1,
   by decide⟩

/-- C8 counterexample: the claim says a whitespace-only title never appears
in the output of either branch, but the fail-open branch returns the input
unchanged, whitespace-only titles included. -/
theorem C8_counterexample :
    filter_new_tenders false dbCallBad [tenderBlank] "Marsa Maroc" = [tenderBlank] ∧
    pyStripStr tenderBlank.objet = "" := ⟨rfl, by decide⟩

/-- C8 (amended): records whose trimmed title is empty are excluded only by
the database branch when the site resolves; the fail-open branch returns
the input unchanged, so they pass through there. -/
theorem C8_empty_title_amended :
    (∀ (db : Db) (tenders : List Tender) (site_name : String) (sid : Nat),
      findSiteId db site_name = some sid →
      ∀ t ∈ _filter_new_tenders_db db tenders site_name, pyStripStr t.objet ≠ "") ∧
    (∀ (dbCall : List Tender → String → Except String (List Tender))
       (tenders : List Tender) (site_name : String),
      filter_new_tenders false dbCall tenders site_name = tenders) := by
  constructor
  · intro db tenders site_name sid hsid t ht
    unfold _filter_new_tenders_db at ht
    rw [hsid] at ht
    have hp := List.of_mem_filter ht
    simp only [Bool.and_eq_true, decide_eq_true_eq] at hp
    exact hp.1
  · intro dbCall tenders site_name; rfl

/-- C8 witness: in the database branch with the site resolved, the
whitespace-only record is dropped and only the titled record survives. -/
theorem C8_empty_title_amended_witness :
    findSiteId dbW8 "ADM - Autoroutes du Maroc" = some 3 ∧
    (∀ t ∈ _filter_new_tenders_db dbW8 tendersW8 "ADM - Autoroutes du Maroc",
      pyStripStr t.objet ≠ "") ∧
    _filter_new_tenders_db dbW8 tendersW8 "ADM - Autoroutes du Maroc" =
      [{ objet := "Travaux divers", date_limite := none, link := none }] :=
  ⟨by decide,
   fun t ht =>
     C8_empty_title_amended.1 dbW8 tendersW8 "ADM - Autoroutes du Maroc" 3 (by decide) t ht,
   by decide⟩

/-- C1 counterexample: the claim says all five single-attempt scrapers catch
unrecoverable errors inside `scrape()` and return an empty list, but ADM
and Marsa Maroc re-raise, and Offres Online has no handler at all. -/
theorem C1_counterexample :
    admScrape admEnvBad = Except.error "TimeoutError" ∧
    marsaScrape marsaEnvBad = Except.error "TimeoutError" ∧
    offresScrape offresEnvBad = Except.error "TimeoutError" := ⟨rfl, rfl, rfl⟩

/-- C1 (amended): of the five single-attempt scrapers only Marchés Publics
and CGI catch every exception in `scrape()` and return an empty list; ADM
and Marsa Maroc catch and re-raise, and Offres Online propagates unhandled
(its `try` has only a `finally`). -/
theorem C1_error_handling_amended :
    (∀ (env : MpEnv) (e : String),
      mpBody env = Except.error e → marchesPublicsScrape env = Except.ok []) ∧
    (∀ env : CgiEnv, ∃ r, cgiScrape env = Except.ok r) ∧
    (∀ (env : AdmEnv) (e : String),
      admBody env = Except.error e → admScrape env = Except.error e) ∧
    (∀ (env : MarsaEnv) (e : String),
      marsaBody env = Except.error e → marsaScrape env = Except.error e) ∧
    (∀ (env : OffresEnv) (e : String),
      env.pre = Except.error e → offresScrape env = Except.error e) := by
  refine ⟨?_, ?_, ?_, ?_, ?_⟩
  · intro env e h
    unfold marchesPublicsScrape
    rw [h]
  · intro env
    unfold cgiScrape cgiBody
    cases hp : env.pre with
    | error e => exact ⟨[], rfl⟩
    | ok u =>
      cases hi : cgiInner env with
      | ok r => exact ⟨r, rfl⟩
      | error e => exact ⟨[], rfl⟩
  · intro env e h
    unfold admScrape
    rw [h]
  · intro env e h
    unfold marsaScrape
    rw [h]
  · intro env e h
    unfold offresScrape
    rw [h]

/-- C1 witness: a concrete timed-out session for each of the five variants. -/
theorem C1_error_handling_amended_witness :
    mpBody mpEnvBad = Except.error "TimeoutError" ∧
    marchesPublicsScrape mpEnvBad = Except.ok [] ∧
    (∃ r, cgiScrape cgiEnvBad = Except.ok r) ∧
    admBody admEnvBad = Except.error "TimeoutError" ∧
    admScrape admEnvBad = Except.error "TimeoutError" ∧
    marsaBody marsaEnvBad = Except.error "TimeoutError" ∧
    marsaScrape marsaEnvBad = Except.error "TimeoutError" ∧
    offresEnvBad.pre = Except.error "TimeoutError" ∧
    offresScrape offresEnvBad = Except.error "TimeoutError" :=
  ⟨rfl, C1_error_handling_amended.1 mpEnvBad "TimeoutError" rfl,
   C1_error_handling_amended.2.1 cgiEnvBad,
   rfl, C1_error_handling_amended.2.2.1 admEnvBad "TimeoutError" rfl,
   rfl, C1_error_handling_amended.2.2.2.1 marsaEnvBad "TimeoutError" rfl,
   rfl, C1_error_handling_amended.2.2.2.2 offresEnvBad "TimeoutError" rfl⟩

/-- C3 counterexample: the claim says every scraper suppresses duplicate
titles in-run, but the Royal Air Maroc loop appends two records with the
same title. -/
theorem C3_counterexample :
    (ramExtract ramRowsDup).map (fun t => t.objet) =
      ["Marché de travaux", "Marché de travaux"] ∧
    ¬ (((ramExtract ramRowsDup).map (fun t => t.objet))).Nodup := ⟨by decide, by decide⟩

/-- C3 (amended): only the ADM scraper suppresses duplicate titles with an
in-run seen-set (its batch always has pairwise-distinct titles); the Royal
Air Maroc and CGI loops have no such check and can append equal titles
twice in one run. -/
theorem C3_in_run_dedup_amended :
    (∀ items : Nat → Option AdmItem, (((admExtract items).map (fun t => t.objet))).Nodup) ∧
    ((ramExtract ramRowsDup).map (fun t => t.objet) =
      ["Marché de travaux", "Marché de travaux"]) ∧
    (cgiExtract [cgiRowA, cgiRowA] = Except.ok
      [{ objet := "Objet A", date_limite := some "2025-08-27", link := none },
       { objet := "Objet A", date_limite := some "2025-08-27", link := none }]) := by
  refine ⟨?_, by decide, by rfl⟩
  intro items
  exact (admFold_inv items [2, 3, 4, 5, 6, 7] ([], []) (by simp) (by simp)).1

/-- C6 counterexample: the claim says every English `"Month DD, YYYY"`
normalises to ISO, but months whose name contains a French abbreviation
(`jan` ⊂ january, `mar` ⊂ march) are diverted into the French branch, whose
lookup of the day string fails, and the normalizer returns null. -/
theorem C6_counterexample :
    convert_date_to_standard_format "January 27, 2025" = none ∧
    convert_date_to_standard_format "March 27, 2025" = none := ⟨by rfl, by rfl⟩

/-! ## Lemmas about the regex machinery, towards C6 -/

theorem takeDigits_append :
    ∀ (n : Nat) (l t r : List Char), takeDigits n l = some (t, r) → l = t ++ r := by
  intro n
  induction n with
  | zero =>
    intro l t r h
    simp only [takeDigits, Option.some_inj, Prod.mk.injEq] at h
    rw [← h.1, ← h.2]
    rfl
  | succ m ih =>
    intro l t r h
    cases l with
    | nil => simp [takeDigits] at h
    | cons c cs =>
      simp only [takeDigits] at h
      by_cases hc : isDig c
      · rw [if_pos hc] at h
        cases hm : takeDigits m cs with
        | none => rw [hm] at h; simp at h
        | some p =>
          rw [hm] at h
          simp only [Option.map_some', Option.some_inj, Prod.mk.injEq] at h
          rw [← h.1, ← h.2, List.cons_append]
          rw [ih cs p.1 p.2 (by rw [hm])]
      · rw [if_neg hc] at h
        simp at h

theorem try12_split {α : Type} (l : List Char) (k : List Char → List Char → Option α) (v : α)
    (h : try12 l k = some v) : ∃ t r, l = t ++ r ∧ k t r = some v := by
  unfold try12 at h
  split at h
  · rename_i t r heq2
    split at h
    · rename_i w hk
      injection h with hwv
      subst hwv
      exact ⟨t, r, takeDigits_append 2 l t r heq2, hk⟩
    · split at h
      · rename_i t1 r1 heq1
        exact ⟨t1, r1, takeDigits_append 1 l t1 r1 heq1, h⟩
      · exact absurd h (by simp)
  · split at h
    · rename_i t1 r1 heq1
      exact ⟨t1, r1, takeDigits_append 1 l t1 r1 heq1, h⟩
    · exact absurd h (by simp)

theorem tryAlts_split {α : Type} :
    ∀ (alts : List (List Char)) (l : List Char) (k : List Char → List Char → Option α) (v : α),
      tryAlts alts l k = some v →
      ∃ a, a ∈ alts ∧ pfxOf a l = true ∧ k a (l.drop a.length) = some v := by
  intro alts
  induction alts with
  | nil => intro l k v h; simp [tryAlts] at h
  | cons a rest ih =>
    intro l k v h
    unfold tryAlts at h
    split at h
    · rename_i w hw
      by_cases hp : pfxOf a l
      · rw [if_pos hp] at hw
        injection h with hv
        subst hv
        exact ⟨a, List.mem_cons_self a rest, hp, hw⟩
      · rw [if_neg hp] at hw
        exact absurd hw (by simp)
    · rcases ih l k v h with ⟨b, hb, hp, hk⟩
      exact ⟨b, List.mem_cons_of_mem a hb, hp, hk⟩

theorem matchNumAt_mem (sep : Char) (n : Nat) (l : List Char)
    (g : List Char × List Char × List Char) (h : matchNumAt sep n l = some g) : sep ∈ l := by
  unfold matchNumAt at h
  rcases try12_split l _ g h with ⟨t, r, rfl, hk⟩
  split at hk
  · split at hk
    · rename_i hc
      subst hc
      exact List.mem_append_right t (List.mem_cons_self _ _)
    · exact absurd hk (by simp)
  · exact absurd hk (by simp)

theorem matchYmdAt_mem (l : List Char) (g : List Char × List Char × List Char)
    (h : matchYmdAt l = some g) : '-' ∈ l := by
  unfold matchYmdAt at h
  split at h
  · rename_i yC r1 heq
    split at h
    · rename_i r2
      have hl := takeDigits_append 4 l yC ('-' :: r2) heq
      rw [hl]
      exact List.mem_append_right _ (List.mem_cons_self _ _)
    · exact absurd h (by simp)
  · exact absurd h (by simp)

theorem searchBy_eq_none {α : Type} (f : List Char → Option α) :
    ∀ l : List Char, (∀ l', l' <:+ l → f l' = none) → searchBy f l = none := by
  intro l
  induction l with
  | nil =>
    intro h
    exact h [] (List.suffix_refl [])
  | cons c t ih =>
    intro h
    unfold searchBy
    rw [h (c :: t) (List.suffix_refl _)]
    exact ih (fun l' hs => h l' (hs.trans (List.suffix_cons c t)))

theorem containsSub_of_pfx (tok l : List Char) (h : pfxOf tok l = true) :
    containsSub tok l = true := by
  cases l with
  | nil =>
    cases tok with
    | nil => rfl
    | cons a as =>
      rw [show pfxOf (a :: as) [] = false from rfl] at h
      exact absurd h (by simp)
  | cons c t =>
    unfold containsSub
    rw [h]
    rfl

theorem containsSub_tail (tok : List Char) (c : Char) (t : List Char)
    (h : containsSub tok t = true) : containsSub tok (c :: t) = true := by
  unfold containsSub
  rw [h]
  simp

theorem containsSub_append_right (tok r : List Char) :
    ∀ u : List Char, containsSub tok r = true → containsSub tok (u ++ r) = true := by
  intro u
  induction u with
  | nil => intro h; exact h
  | cons c u' ih => intro h; exact containsSub_tail tok c (u' ++ r) (ih h)

theorem containsSub_dropWhile (tok : List Char) (p : Char → Bool) :
    ∀ l : List Char, containsSub tok (l.dropWhile p) = true → containsSub tok l = true := by
  intro l
  induction l with
  | nil => intro h; exact h
  | cons c t ih =>
    intro h
    rw [List.dropWhile_cons] at h
    by_cases hp : p c
    · rw [if_pos hp] at h
      exact containsSub_tail tok c t (ih h)
    · rw [if_neg hp] at h
      exact h

theorem containsSub_suffix (tok l' l : List Char) (hs : l' <:+ l)
    (h : containsSub tok l' = true) : containsSub tok l = true := by
  rcases hs with ⟨u, rfl⟩
  exact containsSub_append_right tok l' u h

theorem matchP6At_token (l : List Char) (g : List Char × List Char × List Char)
    (h : matchP6At l = some g) : ∃ tok ∈ frAltTokens, containsSub tok l = true := by
  unfold matchP6At at h
  split at h
  · exact absurd h (by simp)
  · split at h
    · exact absurd h (by simp)
    · rcases try12_split _ _ g h with ⟨t, r3, heq, hk⟩
      split at hk
      · exact absurd hk (by simp)
      · rcases tryAlts_split _ _ _ g hk with ⟨tok, hmem, hp, _⟩
        refine ⟨tok, hmem, ?_⟩
        have h4 : containsSub tok (r3.dropWhile isSpaceChar) = true := containsSub_of_pfx _ _ hp
        have h3 : containsSub tok r3 = true := containsSub_dropWhile tok _ r3 h4
        have h2 : containsSub tok ((l.dropWhile isWordChar).dropWhile isSpaceChar) = true := by
          rw [heq]
          exact containsSub_append_right tok r3 t h3
        have h1 : containsSub tok (l.dropWhile isWordChar) = true :=
          containsSub_dropWhile tok _ _ h2
        exact containsSub_dropWhile tok _ _ h1

theorem matchP7At_token (l : List Char) (g : List Char × List Char × List Char)
    (h : matchP7At l = some g) : ∃ tok ∈ frFullTokens, containsSub tok l = true := by
  unfold matchP7At at h
  rcases try12_split _ _ g h with ⟨t, r1, heq, hk⟩
  split at hk
  · exact absurd hk (by simp)
  · rcases tryAlts_split _ _ _ g hk with ⟨tok, hmem, hp, _⟩
    refine ⟨tok, hmem, ?_⟩
    have h3 : containsSub tok (r1.dropWhile isSpaceChar) = true := containsSub_of_pfx _ _ hp
    have h2 : containsSub tok r1 = true := containsSub_dropWhile tok _ r1 h3
    rw [heq]
    exact containsSub_append_right tok r1 t h2

theorem searchNum_none (sep : Char) (n : Nat) (l : List Char) (h : sep ∉ l) :
    searchBy (matchNumAt sep n) l = none := by
  refine searchBy_eq_none _ l (fun l' hs => ?_)
  cases hm : matchNumAt sep n l' with
  | none => rfl
  | some g => exact absurd (hs.subset (matchNumAt_mem sep n l' g hm)) h

theorem searchYmd_none (l : List Char) (h : '-' ∉ l) : searchBy matchYmdAt l = none := by
  refine searchBy_eq_none _ l (fun l' hs => ?_)
  cases hm : matchYmdAt l' with
  | none => rfl
  | some g => exact absurd (hs.subset (matchYmdAt_mem l' g hm)) h

theorem searchP6_none (l : List Char)
    (h : ∀ tok ∈ frAltTokens, containsSub tok l = false) : searchBy matchP6At l = none := by
  refine searchBy_eq_none _ l (fun l' hs => ?_)
  cases hm : matchP6At l' with
  | none => rfl
  | some g =>
    rcases matchP6At_token l' g hm with ⟨tok, hmem, hc⟩
    have := containsSub_suffix tok l' l hs hc
    rw [h tok hmem] at this
    exact absurd this (by simp)

theorem searchP7_none (l : List Char)
    (h : ∀ tok ∈ frFullTokens, containsSub tok l = false) : searchBy matchP7At l = none := by
  refine searchBy_eq_none _ l (fun l' hs => ?_)
  cases hm : matchP7At l' with
  | none => rfl
  | some g =>
    rcases matchP7At_token l' g hm with ⟨tok, hmem, hc⟩
    have := containsSub_suffix tok l' l hs hc
    rw [h tok hmem] at this
    exact absurd this (by simp)

theorem pfxOf_append_self : ∀ X B : List Char, pfxOf X (X ++ B) = true := by
  intro X B
  induction X with
  | nil => rfl
  | cons c t ih => simp [pfxOf, ih]

theorem pfxOf_append_stop (P : Char → Bool) :
    ∀ (key X B : List Char), (∀ c ∈ key, P c = true) → (∀ c ∈ B, P c = false) →
      pfxOf key (X ++ B) = pfxOf key X := by
  intro key
  induction key with
  | nil => intro X B _ _; rfl
  | cons k ks ih =>
    intro X B hkey hB
    cases X with
    | nil =>
      cases B with
      | nil => rfl
      | cons b bs =>
        have hkb : k ≠ b := by
          intro he
          have h1 := hkey k (List.mem_cons_self k ks)
          have h2 := hB b (List.mem_cons_self b bs)
          rw [he, h2] at h1
          exact Bool.false_ne_true h1
        simp [pfxOf, hkb]
    | cons x xs =>
      show pfxOf (k :: ks) (x :: (xs ++ B)) = pfxOf (k :: ks) (x :: xs)
      unfold pfxOf
      rw [ih xs B (fun c hc => hkey c (List.mem_cons_of_mem k hc)) hB]

theorem containsSub_false_of_forbidden (P : Char → Bool) (k : Char) (ks : List Char)
    (hk : P k = true) :
    ∀ B : List Char, (∀ c ∈ B, P c = false) → containsSub (k :: ks) B = false := by
  intro B
  induction B with
  | nil => intro _; rfl
  | cons b bs ih =>
    intro hB
    have hkb : k ≠ b := by
      intro he
      have h2 := hB b (List.mem_cons_self b bs)
      rw [he, h2] at hk
      exact Bool.false_ne_true hk
    unfold containsSub
    rw [ih (fun c hc => hB c (List.mem_cons_of_mem b hc))]
    simp [pfxOf, hkb]

theorem containsSub_append_eq (P : Char → Bool) (key B : List Char) (hne : key ≠ [])
    (hkey : ∀ c ∈ key, P c = true) (hB : ∀ c ∈ B, P c = false) :
    ∀ A : List Char, containsSub key (A ++ B) = containsSub key A := by
  intro A
  induction A with
  | nil =>
    cases key with
    | nil => exact absurd rfl hne
    | cons k ks =>
      show containsSub (k :: ks) B = containsSub (k :: ks) []
      rw [containsSub_false_of_forbidden P k ks (hkey k (List.mem_cons_self k ks)) B hB]
      rfl
  | cons a A' ih =>
    show containsSub key (a :: (A' ++ B)) = containsSub key (a :: A')
    unfold containsSub
    rw [ih]
    have hpfx : pfxOf key (a :: (A' ++ B)) = pfxOf key (a :: A') := by
      have h0 := pfxOf_append_stop P key (a :: A') B hkey hB
      rwa [List.cons_append] at h0
    rw [hpfx]

theorem tryAlts_first_hit {α : Type} (P : Char → Bool) :
    ∀ (alts : List (List Char)) (X B : List Char) (k : List Char → List Char → Option α)
      (v : α),
      (∀ tok ∈ alts, ∀ c ∈ tok, P c = true) → (∀ c ∈ B, P c = false) →
      X ∈ alts → (∀ tok ∈ alts, tok ≠ X → pfxOf tok X = false) →
      k X B = some v → tryAlts alts (X ++ B) k = some v := by
  intro alts
  induction alts with
  | nil => intro X B k v _ _ hmem _ _; exact absurd hmem (List.not_mem_nil X)
  | cons a rest ih =>
    intro X B k v hP hB hmem hne hk
    by_cases ha : a = X
    · subst ha
      unfold tryAlts
      rw [if_pos (pfxOf_append_self a B), List.drop_left, hk]
    · unfold tryAlts
      have hpf : pfxOf a (X ++ B) = false := by
        rw [pfxOf_append_stop P a X B (hP a (List.mem_cons_self a rest)) hB]
        exact hne a (List.mem_cons_self a rest) ha
      rw [hpf]
      simp only [Bool.false_eq_true, if_false]
      have hmem' : X ∈ rest := by
        rcases List.mem_cons.mp hmem with h | h
        · exact absurd h.symm ha
        · exact h
      exact ih X B k v (fun tok ht => hP tok (List.mem_cons_of_mem a ht)) hB hmem'
        (fun tok ht => hne tok (List.mem_cons_of_mem a ht)) hk

theorem takeDigits_all :
    ∀ (d r : List Char), (∀ c ∈ d, isDig c = true) → takeDigits d.length (d ++ r) = some (d, r) := by
  intro d
  induction d with
  | nil => intro r _; rfl
  | cons c t ih =>
    intro r h
    show takeDigits (t.length + 1) (c :: (t ++ r)) = some (c :: t, r)
    simp only [takeDigits, h c (List.mem_cons_self c t), if_true]
    rw [ih r (fun x hx => h x (List.mem_cons_of_mem c hx))]
    rfl

theorem isDig_not_space (c : Char) (h : isDig c = true) : isSpaceChar c = false := by
  simp only [isDig, Bool.and_eq_true, decide_eq_true_eq] at h
  simp only [isSpaceChar, Bool.or_eq_false_iff, decide_eq_false_iff_not]
  omega

theorem isDig_not_isLet (c : Char) (h : isDig c = true) : isLet c = false := by
  simp only [isDig, Bool.and_eq_true, decide_eq_true_eq] at h
  simp only [isLet, Bool.or_eq_false_iff, Bool.and_eq_false_iff, decide_eq_false_iff_not]
  omega

theorem dropWhile_eq_self_head {p : Char → Bool} {l : List Char}
    (h : ∀ c, l.head? = some c → p c = false) : l.dropWhile p = l := by
  cases l with
  | nil => rfl
  | cons c t =>
    rw [List.dropWhile_cons, h c rfl]
    simp

theorem pyStrip_eq_self (l : List Char)
    (h1 : ∀ c, l.head? = some c → isSpaceChar c = false)
    (h2 : ∀ c, l.getLast? = some c → isSpaceChar c = false) : pyStrip l = l := by
  unfold pyStrip
  rw [dropWhile_eq_self_head h1]
  rw [dropWhile_eq_self_head (fun c hc => h2 c (by rwa [List.head?_reverse] at hc))]
  exact List.reverse_reverse l

theorem pyLowerChar_digit (c : Char) (h : isDig c = true) : pyLowerChar c = c := by
  simp only [isDig, Bool.and_eq_true, decide_eq_true_eq] at h
  unfold pyLowerChar
  rw [if_neg (by omega), if_neg (by omega)]

theorem pyLower_digits (d : List Char) (h : ∀ c ∈ d, isDig c = true) : pyLower d = d := by
  induction d with
  | nil => rfl
  | cons c t ih =>
    show pyLowerChar c :: pyLower t = c :: t
    rw [pyLowerChar_digit c (h c (List.mem_cons_self c t)),
      ih (fun x hx => h x (List.mem_cons_of_mem c hx))]

theorem pyLower_append (a b : List Char) : pyLower (a ++ b) = pyLower a ++ pyLower b :=
  List.map_append pyLowerChar a b

theorem tryNext_none {α : Type} (f : Unit → Option α) : tryNext none f = f () := rfl

theorem tryNext_some {α : Type} (v : α) (f : Unit → Option α) :
    tryNext (some v) f = some v := rfl

theorem p8Tail_eval (tok dC y : List Char) (hy4 : y.length = 4)
    (hyd : ∀ c ∈ y, isDig c = true) : p8Tail tok dC (' ' :: y) = some (tok, dC, y) := by
  obtain ⟨y0, yR, rfl⟩ : ∃ a b, y = a :: b := by
    cases y with
    | nil => simp at hy4
    | cons a b => exact ⟨a, b, rfl⟩
  have hy0 : isSpaceChar y0 = false :=
    isDig_not_space y0 (hyd y0 (List.mem_cons_self y0 yR))
  unfold p8Tail
  rw [List.takeWhile_cons, List.dropWhile_cons]
  simp only [show isSpaceChar ' ' = true from rfl, if_true]
  rw [List.takeWhile_cons, List.dropWhile_cons]
  simp only [hy0, Bool.false_eq_true, if_false]
  rw [if_neg (by simp)]
  have ht := takeDigits_all (y0 :: yR) [] hyd
  rw [List.append_nil] at ht
  rw [hy4] at ht
  rw [ht]
  rfl

theorem p8_body (tok d y : List Char) (hd0 : d ≠ []) (hd2 : d.length ≤ 2)
    (hdd : ∀ c ∈ d, isDig c = true) (hy4 : y.length = 4) (hyd : ∀ c ∈ y, isDig c = true) :
    (if ((' ' :: (d ++ ',' :: ' ' :: y)).takeWhile isSpaceChar) = [] then none
     else
       try12 ((' ' :: (d ++ ',' :: ' ' :: y)).dropWhile isSpaceChar) (fun dC r3 =>
         match r3 with
         | ',' :: rest =>
           (match p8Tail tok dC rest with
            | some v => some v
            | none => p8Tail tok dC r3)
         | _ => p8Tail tok dC r3)) = some (tok, d, y) := by
  obtain ⟨d0, dR, rfl⟩ : ∃ a b, d = a :: b := by
    cases d with
    | nil => exact absurd rfl hd0
    | cons a b => exact ⟨a, b, rfl⟩
  have hd0s : isSpaceChar d0 = false :=
    isDig_not_space d0 (hdd d0 (List.mem_cons_self d0 dR))
  rw [List.takeWhile_cons, List.dropWhile_cons]
  simp only [show isSpaceChar ' ' = true from rfl, if_true, List.cons_append]
  rw [List.takeWhile_cons, List.dropWhile_cons]
  simp only [hd0s, Bool.false_eq_true, if_false]
  rw [if_neg (by simp)]
  have hdig0 : isDig d0 = true := hdd d0 (List.mem_cons_self d0 dR)
  cases dR with
  | nil =>
    show try12 (d0 :: (',' :: ' ' :: y)) _ = _
    unfold try12
    simp only [takeDigits, hdig0, if_true, show isDig ',' = false from rfl,
      Bool.false_eq_true, if_false, Option.map_none', Option.map_some']
    rw [p8Tail_eval tok [d0] y hy4 hyd]
  | cons d1 dR2 =>
    have hdR2 : dR2 = [] := by
      simp only [List.length_cons] at hd2
      have hlen : dR2.length = 0 := by omega
      exact List.length_eq_zero.mp hlen
    subst hdR2
    have hdig1 : isDig d1 = true := hdd d1 (List.mem_cons_of_mem d0 (List.mem_cons_self d1 []))
    show try12 (d0 :: d1 :: (',' :: ' ' :: y)) _ = _
    unfold try12
    simp only [takeDigits, hdig0, hdig1, if_true, Option.map_some']
    rw [p8Tail_eval tok [d0, d1] y hy4 hyd]

/-- The master computation for C6: for any word `cap` whose lower-casing
`lowM` is one of the English month names, contains no French month token,
is not shadowed by an earlier English alternative, and maps to month number
`mm`, the normalizer sends `cap ++ " D, Y"` (D a 1-2 digit day, Y a 4-digit
year) to `Y-mm-zfill2 D`. -/
theorem convCore_month (cap lowM mm : List Char) (d y : List Char)
    (hcap : cap ≠ [])
    (hlow : pyLower cap = lowM)
    (hhead : cap.head?.all (fun c => !isSpaceChar c && !(c = 'N')) = true)
    (hLowLet : ∀ c ∈ lowM, isLet c = true)
    (hLowNe : lowM ≠ [])
    (hFrTok : ∀ tok ∈ frAltTokens, containsSub tok lowM = false)
    (hFrKey : ∀ p ∈ frenchMonths, containsSub p.1 lowM = false)
    (hFrFacts : ∀ tok ∈ frAltTokens, tok ≠ [] ∧ ∀ c ∈ tok, isLet c = true)
    (hFrKFacts : ∀ p ∈ frenchMonths, p.1 ≠ [] ∧ ∀ c ∈ p.1, isLet c = true)
    (hF7sub : ∀ tok ∈ frFullTokens, tok ∈ frAltTokens)
    (hmem : lowM ∈ enTokens)
    (hEnFacts : ∀ tok ∈ enTokens, ∀ c ∈ tok, isLet c = true)
    (hne : ∀ tok ∈ enTokens, tok ≠ lowM → pfxOf tok lowM = false)
    (hEnMem : (lowM, mm) ∈ englishMonths)
    (hlook : lookupAssoc englishMonths lowM = some mm)
    (hzmm : zfill2 mm = mm)
    (hd0 : d ≠ []) (hd2 : d.length ≤ 2) (hdd : ∀ c ∈ d, isDig c = true)
    (hy4 : y.length = 4) (hyd : ∀ c ∈ y, isDig c = true) :
    convCore (cap ++ ' ' :: (d ++ ',' :: ' ' :: y)) =
      some (y ++ '-' :: mm ++ '-' :: zfill2 d) := by
  obtain ⟨c0, capR, rfl⟩ : ∃ a b, cap = a :: b := by
    cases cap with
    | nil => exact absurd rfl hcap
    | cons a b => exact ⟨a, b, rfl⟩
  obtain ⟨y0, yR, hydec⟩ : ∃ a b, y = a :: b := by
    cases y with
    | nil => simp at hy4
    | cons a b => exact ⟨a, b, rfl⟩
  obtain ⟨d0, dR, hddec⟩ : ∃ a b, d = a :: b := by
    cases d with
    | nil => exact absurd rfl hd0
    | cons a b => exact ⟨a, b, rfl⟩
  have hc0 : isSpaceChar c0 = false ∧ c0 ≠ 'N' := by
    simp only [List.head?, Option.all, Bool.and_eq_true, Bool.not_eq_true',
      decide_eq_false_iff_not] at hhead
    exact hhead
  -- the input and its pieces
  set B : List Char := ' ' :: (d ++ ',' :: ' ' :: y) with hB
  set input : List Char := (c0 :: capR) ++ B with hinput
  -- strip is the identity here
  have hstrip : pyStrip input = input := by
    refine pyStrip_eq_self input ?_ ?_
    · intro c hc
      have : c = c0 := by
        have hh : input.head? = some c0 := rfl
        rw [hh] at hc
        injection hc with hc'
        exact hc'.symm
      rw [this]
      exact hc0.1
    · intro c hc
      have hA : input = ((c0 :: capR) ++ ' ' :: (d ++ [',', ' '])) ++ y := by
        simp [hinput, hB, List.append_assoc]
      rw [hA, List.getLast?_append_of_ne_nil _ (by rw [hydec]; simp)] at hc
      have hcy : c ∈ y := List.mem_of_mem_getLast? hc
      exact isDig_not_space c (hyd c hcy)
  -- not a sentinel
  have hne0 : ¬ input = [] := by simp [hinput]
  have hsent : ¬ (pyStrip input = "N/A".data ∨ pyStrip input = [] ∨
      pyStrip input = "Non spécifiée".data) := by
    rw [hstrip]
    rintro (h | h | h)
    · have h' : c0 :: (capR ++ B) = 'N' :: ['/', 'A'] := h
      injection h' with h1 _
      exact hc0.2 h1
    · exact hne0 h
    · have h' : c0 :: (capR ++ B) =
        'N' :: "on spécifiée".data := h
      injection h' with h1 _
      exact hc0.2 h1
  -- the lowered text
  have hpB : pyLower B = B := by
    have h2 : pyLower (',' :: ' ' :: y) = ',' :: ' ' :: y := by
      show pyLowerChar ',' :: pyLowerChar ' ' :: pyLower y = _
      rw [pyLower_digits y hyd]
      rfl
    have h3 : pyLower (d ++ ',' :: ' ' :: y) = d ++ ',' :: ' ' :: y := by
      rw [pyLower_append, pyLower_digits d hdd, h2]
    show pyLowerChar ' ' :: pyLower (d ++ ',' :: ' ' :: y) = B
    rw [h3, hB]
    rfl
  have hlowtext : pyLower (pyStrip input) = lowM ++ B := by
    rw [hstrip]
    show pyLower ((c0 :: capR) ++ B) = lowM ++ B
    rw [pyLower_append, hlow, hpB]
  -- character classification of the lowered text
  have hBlet : ∀ c ∈ B, isLet c = false := by
    intro c hc
    rw [hB] at hc
    rcases List.mem_cons.mp hc with rfl | hc
    · rfl
    rcases List.mem_append.mp hc with hc | hc
    · exact isDig_not_isLet c (hdd c hc)
    rcases List.mem_cons.mp hc with rfl | hc
    · rfl
    rcases List.mem_cons.mp hc with rfl | hc
    · rfl
    · exact isDig_not_isLet c (hyd c hc)
  have hclass : ∀ c ∈ lowM ++ B, isLet c = true ∨ isDig c = true ∨ c = ' ' ∨ c = ',' := by
    intro c hc
    rcases List.mem_append.mp hc with hc | hc
    · exact Or.inl (hLowLet c hc)
    rw [hB] at hc
    rcases List.mem_cons.mp hc with rfl | hc
    · exact Or.inr (Or.inr (Or.inl rfl))
    rcases List.mem_append.mp hc with hc | hc
    · exact Or.inr (Or.inl (hdd c hc))
    rcases List.mem_cons.mp hc with rfl | hc
    · exact Or.inr (Or.inr (Or.inr rfl))
    rcases List.mem_cons.mp hc with rfl | hc
    · exact Or.inr (Or.inr (Or.inl rfl))
    · exact Or.inr (Or.inl (hyd c hc))
  have hnosep : ∀ s : Char, s ∈ lowM ++ B → s ≠ '/' ∧ s ≠ '-' ∧ s ≠ '.' := by
    intro s hs
    rcases hclass s hs with h | h | h | h
    · refine ⟨?_, ?_, ?_⟩ <;> (rintro rfl; exact absurd h (by decide))
    · refine ⟨?_, ?_, ?_⟩ <;> (rintro rfl; exact absurd h (by decide))
    · subst h; exact ⟨by decide, by decide, by decide⟩
    · subst h; exact ⟨by decide, by decide, by decide⟩
  have hslash : '/' ∉ lowM ++ B := fun hm => (hnosep '/' hm).1 rfl
  have hdash : '-' ∉ lowM ++ B := fun hm => (hnosep '-' hm).2.1 rfl
  have hdot : '.' ∉ lowM ++ B := fun hm => (hnosep '.' hm).2.2 rfl
  -- the French tokens do not occur in the lowered text
  have hFrL : ∀ tok ∈ frAltTokens, containsSub tok (lowM ++ B) = false := by
    intro tok htok
    rw [containsSub_append_eq isLet tok B (hFrFacts tok htok).1 (hFrFacts tok htok).2 hBlet]
    exact hFrTok tok htok
  have hFrKL : ∀ p ∈ frenchMonths, containsSub p.1 (lowM ++ B) = false := by
    intro p hp
    rw [containsSub_append_eq isLet p.1 B (hFrKFacts p hp).1 (hFrKFacts p hp).2 hBlet]
    exact hFrKey p hp
  -- the English pattern matches at position 0
  have hm8 : matchP8At (lowM ++ B) = some (lowM, d, y) := by
    unfold matchP8At
    refine tryAlts_first_hit isLet enTokens lowM B _ _ hEnFacts hBlet hmem hne ?_
    show (if (B.takeWhile isSpaceChar) = [] then none else _) = some (lowM, d, y)
    rw [hB]
    exact p8_body lowM d y hd0 hd2 hdd hy4 hyd
  have hsearch8 : searchBy matchP8At (lowM ++ B) = some (lowM, d, y) := by
    obtain ⟨m0, lowR, hmdec⟩ : ∃ a b, lowM = a :: b := by
      cases lowM with
      | nil => exact absurd rfl hLowNe
      | cons a b => exact ⟨a, b, rfl⟩
    rw [hmdec] at hm8 ⊢
    show searchBy matchP8At (m0 :: (lowR ++ B)) = some (m0 :: lowR, d, y)
    unfold searchBy
    rw [show matchP8At (m0 :: (lowR ++ B)) = some (m0 :: lowR, d, y) from hm8]
  -- the month-name handler takes the English branch
  have hfrAny : frenchMonths.any (fun p => containsSub p.1 (lowM ++ B)) = false := by
    rw [List.any_eq_false]
    intro p hp
    rw [hFrKL p hp]
    simp
  have henAny : englishMonths.any (fun p => containsSub p.1 (lowM ++ B)) = true := by
    rw [List.any_eq_true]
    refine ⟨(lowM, mm), hEnMem, ?_⟩
    show containsSub lowM (lowM ++ B) = true
    exact containsSub_of_pfx _ _ (pfxOf_append_self lowM B)
  have hhandler : monthNameHandler (lowM ++ B) lowM d y =
      some (y ++ '-' :: mm ++ '-' :: zfill2 d) := by
    unfold monthNameHandler
    rw [hfrAny]
    simp only [Bool.false_eq_true, if_false]
    rw [henAny]
    simp only [if_true]
    rw [hlook]
    show some (y ++ '-' :: zfill2 mm ++ '-' :: zfill2 d) = _
    rw [hzmm]
  have hp8 : p8Handler (lowM ++ B) = some (y ++ '-' :: mm ++ '-' :: zfill2 d) := by
    unfold p8Handler
    rw [hsearch8]
    exact hhandler
  -- the earlier patterns all fail
  have hp6 : p6Handler (lowM ++ B) = none := by
    unfold p6Handler
    rw [searchP6_none _ hFrL]
  have hp7 : p7Handler (lowM ++ B) = none := by
    unfold p7Handler
    rw [searchP7_none _ (fun tok htok => hFrL tok (hF7sub tok htok))]
  -- assemble
  show convCore input = _
  unfold convCore
  rw [if_neg hne0, if_neg hsent, hlowtext]
  rw [searchNum_none '/' 4 _ hslash, searchNum_none '-' 4 _ hdash,
    searchNum_none '.' 4 _ hdot, searchYmd_none _ hdash,
    searchNum_none '/' 2 _ hslash, hp6, hp7, hp8]
  rfl

/-- C6 (amended): for the five English month names whose lower-casing
contains no French month token — February, April, May, August, December —
every `"Month D, Y"` with a 1-2 digit day in 1..31 and a 4-digit year is
normalised to `Y-MM-DD` with the month's table number and zero-padded day;
the other seven English months are shadowed by the French substring check
and normalise to null (shown here on day 27, year 2025). -/
theorem C6_english_months_amended :
    (∀ p ∈ goodEnglishMonths, ∀ d y : List Char,
      d ≠ [] → d.length ≤ 2 → (∀ c ∈ d, isDig c = true) →
      1 ≤ digitsToNat d → digitsToNat d ≤ 31 →
      y.length = 4 → (∀ c ∈ y, isDig c = true) →
      convCore (p.1 ++ ' ' :: (d ++ ',' :: ' ' :: y)) =
        some (y ++ '-' :: p.2.2 ++ '-' :: zfill2 d)) ∧
    convert_date_to_standard_format "January 27, 2025" = none ∧
    convert_date_to_standard_format "March 27, 2025" = none ∧
    convert_date_to_standard_format "June 27, 2025" = none ∧
    convert_date_to_standard_format "July 27, 2025" = none ∧
    convert_date_to_standard_format "September 27, 2025" = none ∧
    convert_date_to_standard_format "October 27, 2025" = none ∧
    convert_date_to_standard_format "November 27, 2025" = none := by
  refine ⟨?_, by rfl, by rfl, by rfl, by rfl, by rfl, by rfl, by rfl⟩
  intro p hp d y hd0 hd2 hdd _ _ hy4 hyd
  fin_cases hp
  · exact convCore_month "February".data "february".data "02".data d y (by decide) (by decide) (by decide) (by decide) (by decide) (by decide) (by decide) (by decide) (by decide) (by decide) (by decide) (by decide) (by decide) (by decide) (by decide) (by decide) hd0 hd2 hdd hy4 hyd
  · exact convCore_month "April".data "april".data "04".data d y (by decide) (by decide) (by decide) (by decide) (by decide) (by decide) (by decide) (by decide) (by decide) (by decide) (by decide) (by decide) (by decide) (by decide) (by decide) (by decide) hd0 hd2 hdd hy4 hyd
  · exact convCore_month "May".data "may".data "05".data d y (by decide) (by decide) (by decide) (by decide) (by decide) (by decide) (by decide) (by decide) (by decide) (by decide) (by decide) (by decide) (by decide) (by decide) (by decide) (by decide) hd0 hd2 hdd hy4 hyd
  · exact convCore_month "August".data "august".data "08".data d y (by decide) (by decide) (by decide) (by decide) (by decide) (by decide) (by decide) (by decide) (by decide) (by decide) (by decide) (by decide) (by decide) (by decide) (by decide) (by decide) hd0 hd2 hdd hy4 hyd
  · exact convCore_month "December".data "december".data "12".data d y (by decide) (by decide) (by decide) (by decide) (by decide) (by decide) (by decide) (by decide) (by decide) (by decide) (by decide) (by decide) (by decide) (by decide) (by decide) (by decide) hd0 hd2 hdd hy4 hyd

/-- C6 witness: the amended statement applied to August 5, 2025. -/
theorem C6_english_months_amended_witness :
    (("August".data, "august".data, "08".data) ∈ goodEnglishMonths) ∧
    convCore ("August".data ++ ' ' :: ("5".data ++ ',' :: ' ' :: "2025".data)) =
      some ("2025".data ++ '-' :: "08".data ++ '-' :: zfill2 "5".data) :=
  ⟨by decide,
   C6_english_months_amended.1 ("August".data, "august".data, "08".data) (by decide)
     "5".data "2025".data (by decide) (by decide) (by decide) (by decide) (by decide)
     (by decide) (by decide)⟩

end Scrapers
